import Mathlib

/-!
# Verification of the thinkdrop-vision-service core

Shallow embedding of the continuous screen-monitoring subsystem and the
result-caching / dual-mode-routing layer:

* `src/services/screenshot.py`    — fingerprint diff scoring
* `src/services/vision_cache.py`  — bounded TTL result cache
* `src/services/vision_engine.py` — dual-mode analysis router
* `src/services/watch_manager.py` — monitor loop and its lifecycle

Python floats that carry wall-clock times and scores are modelled as exact
rationals (`ℚ`); machine byte values are `ℕ` with explicit `≤ 255` bounds.
External collaborators (pixel capture, the cloud vision API, the local VLM,
OCR) are oracle parameters: the embedding covers only this repository's code.
Exceptions are modelled with `Option`/`Except`.
-/

/-! ## Fingerprint & Diff (`src/services/screenshot.py`)

`ScreenshotService.generate_fingerprint` reduces a frame to the raw bytes of a
64×64 grayscale downscale; a fingerprint is therefore a byte sequence, here a
`List ℕ` whose members are `≤ 255`.  `ScreenshotService.calculate_diff` scores
two optional fingerprints.
-/

/-- `abs(a - b)` for two byte values, as computed inside the generator
expression of `calculate_diff`. -/
def byteAbsDiff (a b : ℕ) : ℕ := max a b - min a b

/-- Sum of per-byte absolute differences: `sum(abs(a - b) for a, b in zip(fp_a, fp_b))`. -/
def sumAbsDiff (a b : List ℕ) : ℕ := (List.zipWith byteAbsDiff a b).sum

/-- `ScreenshotService.calculate_diff(fp_a, fp_b)`.

Returns `some 1` when either fingerprint is `None` or the lengths differ,
otherwise `total / (len(fp_a) * 255.0)`.  When both fingerprints are empty the
Python source divides by zero (`0 / 0.0` raises `ZeroDivisionError`); that
raise is modelled as `none`. -/
def calculate_diff (fp_a fp_b : Option (List ℕ)) : Option ℚ :=
  match fp_a, fp_b with
  | none, _ => some 1
  | some _, none => some 1
  | some a, some b =>
    if a.length ≠ b.length then some 1
    else if a.length = 0 then none
    else some ((sumAbsDiff a b : ℚ) / ((a.length : ℚ) * 255))

theorem byteAbsDiff_le_255 {a b : ℕ} (ha : a ≤ 255) (hb : b ≤ 255) :
    byteAbsDiff a b ≤ 255 := by
  unfold byteAbsDiff
  have : max a b ≤ 255 := max_le ha hb
  omega

theorem sumAbsDiff_le (a b : List ℕ)
    (hA : ∀ v ∈ a, v ≤ 255) (hB : ∀ v ∈ b, v ≤ 255) :
    sumAbsDiff a b ≤ 255 * a.length := by
  induction a generalizing b with
  | nil => simp [sumAbsDiff]
  | cons v a ih =>
    cases b with
    | nil => simp [sumAbsDiff]
    | cons w b =>
      have hv : v ≤ 255 := hA v (List.mem_cons_self v a)
      have hw : w ≤ 255 := hB w (List.mem_cons_self w b)
      have htail : sumAbsDiff a b ≤ 255 * a.length :=
        ih b (fun x hx => hA x (List.mem_cons_of_mem v hx))
          (fun x hx => hB x (List.mem_cons_of_mem w hx))
      have hhead : byteAbsDiff v w ≤ 255 := byteAbsDiff_le_255 hv hw
      simp only [sumAbsDiff, List.zipWith_cons_cons, List.sum_cons, List.length_cons]
      calc byteAbsDiff v w + (List.zipWith byteAbsDiff a b).sum
          ≤ 255 + 255 * a.length := Nat.add_le_add hhead htail
        _ = 255 * (a.length + 1) := by ring

theorem sumAbsDiff_self (x : List ℕ) : sumAbsDiff x x = 0 := by
  induction x with
  | nil => rfl
  | cons v x ih =>
    simp only [sumAbsDiff, List.zipWith_cons_cons, List.sum_cons] at *
    simp [byteAbsDiff, ih]

theorem calculate_diff_eq (a b : List ℕ) (hab : a.length = b.length)
    (hlen : a.length ≠ 0) :
    calculate_diff (some a) (some b) =
      some ((sumAbsDiff a b : ℚ) / ((a.length : ℚ) * 255)) := by
  simp only [calculate_diff]
  rw [if_neg (not_not_intro hab), if_neg hlen]

/-- C5: `calculate_diff` returns 1.0 when either fingerprint is absent or the
lengths differ; otherwise it is the mean absolute per-byte difference divided
by 255, which lies in [0, 1]; and every non-empty fingerprint has
self-difference 0. -/
theorem calculate_diff_spec (a b x : List ℕ)
    (hab : a.length = b.length) (ha : a ≠ [])
    (hA : ∀ v ∈ a, v ≤ 255) (hB : ∀ v ∈ b, v ≤ 255) (hx : x ≠ []) :
    (∀ o, calculate_diff none o = some 1) ∧
    (∀ o, calculate_diff o none = some 1) ∧
    (∀ u v : List ℕ, u.length ≠ v.length →
      calculate_diff (some u) (some v) = some 1) ∧
    calculate_diff (some a) (some b) =
      some ((sumAbsDiff a b : ℚ) / (a.length : ℚ) / 255) ∧
    (∃ q, calculate_diff (some a) (some b) = some q ∧ 0 ≤ q ∧ q ≤ 1) ∧
    calculate_diff (some x) (some x) = some 0 := by
  have hlen : a.length ≠ 0 := fun h => ha (List.length_eq_zero.mp h)
  have hlenpos : (0 : ℚ) < (a.length : ℚ) := by
    exact_mod_cast Nat.pos_of_ne_zero hlen
  refine ⟨fun o => rfl, fun o => by cases o <;> rfl, fun u v huv => by
    simp [calculate_diff, huv], ?_, ?_, ?_⟩
  · rw [calculate_diff_eq a b hab hlen, div_div]
  · refine ⟨(sumAbsDiff a b : ℚ) / ((a.length : ℚ) * 255),
      calculate_diff_eq a b hab hlen, ?_, ?_⟩
    · positivity
    · rw [div_le_one (by positivity)]
      have hs : (sumAbsDiff a b : ℚ) ≤ 255 * (a.length : ℚ) := by
        exact_mod_cast sumAbsDiff_le a b hA hB
      linarith
  · have hxlen : x.length ≠ 0 := fun h => hx (List.length_eq_zero.mp h)
    rw [calculate_diff_eq x x rfl hxlen, sumAbsDiff_self]
    norm_num

theorem calculate_diff_spec_witness :
    (∀ o, calculate_diff none o = some 1) ∧
    (∀ o, calculate_diff o none = some 1) ∧
    (∀ u v : List ℕ, u.length ≠ v.length →
      calculate_diff (some u) (some v) = some 1) ∧
    calculate_diff (some [0, 255]) (some [255, 255]) =
      some ((sumAbsDiff [0, 255] [255, 255] : ℚ) / ((2 : ℕ) : ℚ) / 255) ∧
    (∃ q, calculate_diff (some [0, 255]) (some [255, 255]) = some q ∧
      0 ≤ q ∧ q ≤ 1) ∧
    calculate_diff (some [7]) (some [7]) = some 0 := by
  have h := calculate_diff_spec [0, 255] [255, 255] [7]
    (by decide) (by decide) (by decide) (by decide) (by decide)
  simpa using h

/-! ## Result Cache (`src/services/vision_cache.py`)

The cache body `self._cache` is a Python dict, modelled as an association
list in insertion order with unique keys: `d[k] = v` overwrites in place when
`k` is present and appends otherwise, and `del d[k]` removes the unique entry.
Wall-clock reads of `time.time()` are passed in explicitly as `now`.
-/

structure CacheEntry (α : Type) where
  result : α
  timestamp : ℚ
deriving DecidableEq

/-- `VisionCache.__init__(ttl_seconds, max_size)` state. -/
structure VisionCache (α : Type) where
  ttl : ℚ
  max_size : ℕ
  cache : List (String × CacheEntry α)
deriving DecidableEq

/-- Dict lookup `d[k]` / `k in d` (first — and with unique keys, only — match). -/
def lookupKey {α : Type} : List (String × α) → String → Option α
  | [], _ => none
  | (k', v) :: rest, k => if k' = k then some v else lookupKey rest k

/-- Dict assignment `d[k] = v`: overwrite in place when present, else append. -/
def dictSet {α : Type} (l : List (String × α)) (k : String) (v : α) :
    List (String × α) :=
  match lookupKey l k with
  | some _ => l.map (fun p => if p.1 = k then (k, v) else p)
  | none => l ++ [(k, v)]

/-- Dict deletion `del d[k]` (removes every entry with key `k`; with unique
keys, the one entry). -/
def dictDelete {α : Type} : List (String × α) → String → List (String × α)
  | [], _ => []
  | (k', v) :: rest, k =>
    if k' = k then dictDelete rest k else (k', v) :: dictDelete rest k

/-- Removal of a batch of keys, preserving the order of the survivors: the
net effect of `for key, _ in sorted_entries[:num]: del self._cache[key]`. -/
def removeKeys {α : Type} : List (String × α) → List String → List (String × α)
  | [], _ => []
  | (k', v) :: rest, ks =>
    if k' ∈ ks then removeKeys rest ks else (k', v) :: removeKeys rest ks

/-- Stable insertion of one entry into a timestamp-sorted list (helper for
the model of Python's stable `sorted(..., key=lambda x: x[1]['timestamp'])`). -/
def insertByTs {α : Type} (e : String × CacheEntry α) :
    List (String × CacheEntry α) → List (String × CacheEntry α)
  | [] => [e]
  | f :: rest =>
    if f.2.timestamp < e.2.timestamp then f :: insertByTs e rest
    else e :: f :: rest

/-- Stable sort by timestamp, modelling
`sorted(self._cache.items(), key=lambda x: x[1]['timestamp'])`. -/
def sortByTs {α : Type} : List (String × CacheEntry α) → List (String × CacheEntry α)
  | [] => []
  | e :: rest => insertByTs e (sortByTs rest)

/-- `VisionCache._cleanup_oldest`: no-op on an empty cache, otherwise delete
the keys of the first `max(1, len // 5)` entries of the timestamp-sorted view. -/
def cleanupOldest {α : Type} (c : VisionCache α) : VisionCache α :=
  if c.cache.isEmpty then c
  else
    let sorted_entries := sortByTs c.cache
    let num_to_remove := max 1 (sorted_entries.length / 5)
    let toRemove := (sorted_entries.take num_to_remove).map Prod.fst
    { c with cache := removeKeys c.cache toRemove }

/-- `VisionCache.get(key)` at wall-clock time `now`: returns the result and
the post-call cache state (an expired entry is deleted as a side effect). -/
def VisionCache.get {α : Type} (c : VisionCache α) (key : String) (now : ℚ) :
    Option α × VisionCache α :=
  match lookupKey c.cache key with
  | none => (none, c)
  | some entry =>
    if now - entry.timestamp > c.ttl then
      (none, { c with cache := dictDelete c.cache key })
    else
      (some entry.result, c)

/-- `VisionCache.set(key, result)` at wall-clock time `now`. -/
def VisionCache.set {α : Type} (c : VisionCache α) (key : String) (result : α)
    (now : ℚ) : VisionCache α :=
  let c' := if c.max_size ≤ c.cache.length then cleanupOldest c else c
  { c' with cache := dictSet c'.cache key ⟨result, now⟩ }

/-- `VisionCache.clear()`. -/
def VisionCache.clear {α : Type} (c : VisionCache α) : VisionCache α :=
  { c with cache := [] }

structure CacheStats where
  total_entries : ℕ
  active_entries : ℕ
  max_size : ℕ
  ttl_seconds : ℚ
deriving DecidableEq

/-- `VisionCache.get_stats()` at wall-clock time `now`. -/
def VisionCache.get_stats {α : Type} (c : VisionCache α) (now : ℚ) : CacheStats :=
  { total_entries := c.cache.length
    active_entries := (c.cache.filter (fun p => now - p.2.timestamp ≤ c.ttl)).length
    max_size := c.max_size
    ttl_seconds := c.ttl }

/-- One client-visible cache operation, with the wall-clock time at which it
runs. -/
inductive CacheOp (α : Type) where
  | get (key : String) (now : ℚ)
  | set (key : String) (result : α) (now : ℚ)
  | clear

def applyOp {α : Type} (c : VisionCache α) : CacheOp α → VisionCache α
  | .get k now => (c.get k now).2
  | .set k r now => c.set k r now
  | .clear => c.clear

def applyOps {α : Type} (c : VisionCache α) (ops : List (CacheOp α)) :
    VisionCache α :=
  ops.foldl applyOp c

/-- Sequential bulk insertion, used to state the overflow scenario. -/
def insertAll {α : Type} (c : VisionCache α) :
    List (String × α × ℚ) → VisionCache α
  | [] => c
  | (k, r, t) :: rest => insertAll (c.set k r t) rest

/-- Keys of an association list, in order. -/
def keys {α : Type} (l : List (String × α)) : List String := l.map Prod.fst

/-- The dict invariant: keys are unique. -/
def KeysNodup {α : Type} (c : VisionCache α) : Prop := (keys c.cache).Nodup

/-- Entries are in nondecreasing timestamp order (true of any cache built by
fresh insertions at a nondecreasing clock). -/
def TsSorted {α : Type} (c : VisionCache α) : Prop :=
  c.cache.Pairwise (fun p q => p.2.timestamp ≤ q.2.timestamp)

theorem lookupKey_eq_none_iff {α : Type} (l : List (String × α)) (k : String) :
    lookupKey l k = none ↔ k ∉ keys l := by
  induction l with
  | nil => simp [lookupKey, keys]
  | cons p rest ih =>
    obtain ⟨k', v⟩ := p
    by_cases h : k' = k
    · subst h; simp [lookupKey, keys]
    · show (if k' = k then some v else lookupKey rest k) = none ↔
        k ∉ keys ((k', v) :: rest)
      rw [if_neg h, ih]
      simp only [keys, List.map_cons, List.mem_cons, not_or]
      exact ⟨fun hm => ⟨fun he => h he.symm, hm⟩, fun hp => hp.2⟩

theorem lookupKey_append_some {α : Type} {l₁ : List (String × α)} {k : String}
    {v : α} (l₂ : List (String × α)) (h : lookupKey l₁ k = some v) :
    lookupKey (l₁ ++ l₂) k = some v := by
  induction l₁ with
  | nil => simp [lookupKey] at h
  | cons p rest ih =>
    obtain ⟨k', w⟩ := p
    by_cases hk : k' = k
    · simp only [lookupKey, if_pos hk] at h ⊢
      exact h
    · simp only [lookupKey, if_neg hk] at h ⊢
      exact ih h

theorem lookupKey_append_none {α : Type} {l₁ : List (String × α)} {k : String}
    (l₂ : List (String × α)) (h : lookupKey l₁ k = none) :
    lookupKey (l₁ ++ l₂) k = lookupKey l₂ k := by
  induction l₁ with
  | nil => rfl
  | cons p rest ih =>
    obtain ⟨k', w⟩ := p
    by_cases hk : k' = k
    · simp [lookupKey, if_pos hk] at h
    · simp only [List.cons_append, lookupKey, if_neg hk] at h ⊢
      exact ih h

theorem lookupKey_overwrite_self {α : Type} (l : List (String × α)) (k : String)
    (v : α) {w : α} (h : lookupKey l k = some w) :
    lookupKey (l.map (fun p => if p.1 = k then (k, v) else p)) k = some v := by
  induction l with
  | nil => simp [lookupKey] at h
  | cons p rest ih =>
    obtain ⟨k', u⟩ := p
    show lookupKey ((if k' = k then (k, v) else (k', u)) ::
        rest.map (fun p => if p.1 = k then (k, v) else p)) k = some v
    by_cases hk : k' = k
    · rw [if_pos hk]
      show (if k = k then some v else
        lookupKey (rest.map (fun p => if p.1 = k then (k, v) else p)) k) = some v
      rw [if_pos rfl]
    · rw [if_neg hk]
      show (if k' = k then some u else
        lookupKey (rest.map (fun p => if p.1 = k then (k, v) else p)) k) = some v
      rw [if_neg hk]
      simp only [lookupKey, if_neg hk] at h
      exact ih h

theorem lookupKey_overwrite_ne {α : Type} (l : List (String × α)) {k k' : String}
    (v : α) (h : k' ≠ k) :
    lookupKey (l.map (fun p => if p.1 = k then (k, v) else p)) k' =
      lookupKey l k' := by
  induction l with
  | nil => rfl
  | cons p rest ih =>
    obtain ⟨k₀, u⟩ := p
    show lookupKey ((if k₀ = k then (k, v) else (k₀, u)) ::
        rest.map (fun p => if p.1 = k then (k, v) else p)) k' =
      lookupKey ((k₀, u) :: rest) k'
    by_cases hk : k₀ = k
    · rw [if_pos hk]
      show (if k = k' then some v else
          lookupKey (rest.map (fun p => if p.1 = k then (k, v) else p)) k') =
        (if k₀ = k' then some u else lookupKey rest k')
      rw [if_neg (Ne.symm h), if_neg (fun hh : k₀ = k' => h (hh ▸ hk)), ih]
    · rw [if_neg hk]
      show (if k₀ = k' then some u else
          lookupKey (rest.map (fun p => if p.1 = k then (k, v) else p)) k') =
        (if k₀ = k' then some u else lookupKey rest k')
      by_cases hk' : k₀ = k'
      · rw [if_pos hk', if_pos hk']
      · rw [if_neg hk', if_neg hk', ih]

theorem lookupKey_dictSet_self {α : Type} (l : List (String × α)) (k : String)
    (v : α) : lookupKey (dictSet l k v) k = some v := by
  unfold dictSet
  cases h : lookupKey l k with
  | some w =>
    exact lookupKey_overwrite_self l k v h
  | none =>
    rw [lookupKey_append_none _ h]
    simp [lookupKey]

theorem lookupKey_dictSet_ne {α : Type} (l : List (String × α)) {k k' : String}
    (v : α) (h : k' ≠ k) : lookupKey (dictSet l k v) k' = lookupKey l k' := by
  unfold dictSet
  cases hl : lookupKey l k with
  | some w => exact lookupKey_overwrite_ne l v h
  | none =>
    cases h' : lookupKey l k' with
    | some u => rw [lookupKey_append_some _ h']
    | none =>
      rw [lookupKey_append_none _ h']
      simp [lookupKey, Ne.symm h]

theorem dictSet_of_none {α : Type} {l : List (String × α)} {k : String}
    (v : α) (h : lookupKey l k = none) : dictSet l k v = l ++ [(k, v)] := by
  unfold dictSet
  rw [h]

theorem dictSet_length_le {α : Type} (l : List (String × α)) (k : String)
    (v : α) : (dictSet l k v).length ≤ l.length + 1 := by
  unfold dictSet
  cases lookupKey l k with
  | some w => simp
  | none => simp

theorem dictDelete_length_le {α : Type} (l : List (String × α)) (k : String) :
    (dictDelete l k).length ≤ l.length := by
  induction l with
  | nil => simp [dictDelete]
  | cons p rest ih =>
    obtain ⟨k', v⟩ := p
    by_cases hk : k' = k
    · simp only [dictDelete, if_pos hk, List.length_cons]
      omega
    · simp only [dictDelete, if_neg hk, List.length_cons]
      omega

theorem dictDelete_notmem {α : Type} {l : List (String × α)} {k : String}
    (h : k ∉ keys l) : dictDelete l k = l := by
  induction l with
  | nil => rfl
  | cons p rest ih =>
    obtain ⟨k', v⟩ := p
    simp only [keys, List.map_cons, List.mem_cons, not_or] at h
    rw [dictDelete, if_neg (fun hh => h.1 hh.symm), ih (by simpa [keys] using h.2)]

theorem dictDelete_length {α : Type} {l : List (String × α)} {k : String}
    {e : α} (hnd : (keys l).Nodup) (h : lookupKey l k = some e) :
    (dictDelete l k).length + 1 = l.length := by
  induction l with
  | nil => simp [lookupKey] at h
  | cons p rest ih =>
    obtain ⟨k', v⟩ := p
    simp only [keys, List.map_cons, List.nodup_cons] at hnd
    by_cases hk : k' = k
    · subst hk
      rw [dictDelete, if_pos rfl, dictDelete_notmem hnd.1]
      simp
    · simp only [lookupKey, if_neg hk] at h
      rw [dictDelete, if_neg hk]
      simp only [List.length_cons]
      rw [← ih hnd.2 h]

theorem lookupKey_dictDelete_self {α : Type} (l : List (String × α)) (k : String) :
    lookupKey (dictDelete l k) k = none := by
  induction l with
  | nil => rfl
  | cons p rest ih =>
    obtain ⟨k', v⟩ := p
    by_cases hk : k' = k
    · rw [dictDelete, if_pos hk]
      exact ih
    · rw [dictDelete, if_neg hk]
      show (if k' = k then some v else lookupKey (dictDelete rest k) k) = none
      rw [if_neg hk]
      exact ih

theorem removeKeys_nil {α : Type} (l : List (String × α)) :
    removeKeys l [] = l := by
  induction l with
  | nil => rfl
  | cons p rest ih =>
    obtain ⟨k', v⟩ := p
    rw [removeKeys, if_neg (List.not_mem_nil k'), ih]

theorem removeKeys_length_le {α : Type} (l : List (String × α)) (ks : List String) :
    (removeKeys l ks).length ≤ l.length := by
  induction l with
  | nil => simp [removeKeys]
  | cons p rest ih =>
    obtain ⟨k', v⟩ := p
    by_cases hk : k' ∈ ks
    · rw [removeKeys, if_pos hk]
      simp only [List.length_cons]
      omega
    · rw [removeKeys, if_neg hk]
      simp only [List.length_cons]
      omega

theorem removeKeys_length_lt {α : Type} {l : List (String × α)}
    {ks : List String} {p : String × α} (hp : p ∈ l) (hk : p.1 ∈ ks) :
    (removeKeys l ks).length < l.length := by
  induction l with
  | nil => simp at hp
  | cons q rest ih =>
    obtain ⟨k', v⟩ := q
    by_cases hq : k' ∈ ks
    · rw [removeKeys, if_pos hq]
      simp only [List.length_cons]
      exact Nat.lt_succ_of_le (removeKeys_length_le rest ks)
    · rw [removeKeys, if_neg hq]
      simp only [List.length_cons]
      rcases List.mem_cons.mp hp with rfl | hmem
      · exact absurd hk hq
      · exact Nat.succ_lt_succ (ih hmem)

theorem removeKeys_cons_notmem {α : Type} {l : List (String × α)} {k : String}
    (ks : List String) (h : k ∉ keys l) :
    removeKeys l (k :: ks) = removeKeys l ks := by
  induction l with
  | nil => rfl
  | cons p rest ih =>
    obtain ⟨k', v⟩ := p
    simp only [keys, List.map_cons, List.mem_cons, not_or] at h
    have hne : k' ≠ k := fun hh => h.1 hh.symm
    have htail := ih (by simpa [keys] using h.2)
    by_cases hk : k' ∈ ks
    · rw [removeKeys, if_pos (List.mem_cons_of_mem k hk), removeKeys, if_pos hk,
        htail]
    · rw [removeKeys, if_neg (by simp [hne, hk]), removeKeys, if_neg hk, htail]

theorem removeKeys_take {α : Type} {l : List (String × α)}
    (hnd : (keys l).Nodup) (n : ℕ) :
    removeKeys l (keys (l.take n)) = l.drop n := by
  induction l generalizing n with
  | nil => simp [removeKeys, keys]
  | cons p rest ih =>
    obtain ⟨k', v⟩ := p
    simp only [keys, List.map_cons, List.nodup_cons] at hnd
    cases n with
    | zero =>
      simp only [List.take_zero, List.drop_zero]
      exact removeKeys_nil _
    | succ n =>
      simp only [List.take_succ_cons, List.drop_succ_cons]
      rw [keys, List.map_cons, removeKeys,
        if_pos (List.mem_cons_self k' _)]
      rw [removeKeys_cons_notmem _ (by simpa [keys] using hnd.1)]
      exact ih hnd.2 n

theorem insertByTs_perm {α : Type} (e : String × CacheEntry α)
    (l : List (String × CacheEntry α)) :
    List.Perm (insertByTs e l) (e :: l) := by
  induction l with
  | nil => exact List.Perm.refl _
  | cons f rest ih =>
    by_cases h : f.2.timestamp < e.2.timestamp
    · rw [insertByTs, if_pos h]
      exact (ih.cons f).trans (List.Perm.swap e f rest)
    · rw [insertByTs, if_neg h]

theorem sortByTs_perm {α : Type} (l : List (String × CacheEntry α)) :
    List.Perm (sortByTs l) l := by
  induction l with
  | nil => exact List.Perm.refl _
  | cons e rest ih =>
    exact (insertByTs_perm e (sortByTs rest)).trans (ih.cons e)

theorem sortByTs_of_sorted {α : Type} {l : List (String × CacheEntry α)}
    (h : l.Pairwise (fun p q => p.2.timestamp ≤ q.2.timestamp)) :
    sortByTs l = l := by
  induction l with
  | nil => rfl
  | cons e rest ih =>
    rw [sortByTs, ih (List.Pairwise.of_cons h)]
    cases rest with
    | nil => rfl
    | cons f t =>
      have hef : e.2.timestamp ≤ f.2.timestamp :=
        (List.pairwise_cons.mp h).1 f (List.mem_cons_self f t)
      rw [insertByTs, if_neg (not_lt.mpr hef)]

theorem cleanupOldest_length_lt {α : Type} (c : VisionCache α)
    (h : c.cache ≠ []) :
    (cleanupOldest c).cache.length < c.cache.length := by
  have hperm := sortByTs_perm c.cache
  obtain ⟨s₀, s', hs⟩ := List.exists_cons_of_ne_nil
    (fun h0 : sortByTs c.cache = [] => h (List.eq_nil_of_length_eq_zero
      (by rw [← hperm.length_eq, h0]; rfl)))
  have hmem : s₀ ∈ c.cache := hperm.mem_iff.mp (hs ▸ List.mem_cons_self s₀ s')
  unfold cleanupOldest
  rw [if_neg (by simpa [List.isEmpty_iff] using h)]
  show (removeKeys c.cache (((sortByTs c.cache).take
      (max 1 ((sortByTs c.cache).length / 5))).map Prod.fst)).length
    < c.cache.length
  have htake : s₀ ∈ (sortByTs c.cache).take
      (max 1 ((sortByTs c.cache).length / 5)) := by
    rw [hs]
    have h1 : 0 < max 1 ((s₀ :: s').length / 5) :=
      lt_of_lt_of_le Nat.zero_lt_one (le_max_left _ _)
    obtain ⟨n, hn⟩ := Nat.exists_eq_succ_of_ne_zero (Nat.pos_iff_ne_zero.mp h1)
    rw [hn, List.take_succ_cons]
    exact List.mem_cons_self _ _
  exact removeKeys_length_lt hmem (List.mem_map_of_mem Prod.fst htake)

theorem cleanupOldest_eq_drop {α : Type} (c : VisionCache α)
    (hnd : KeysNodup c) (hts : TsSorted c) (h : c.cache ≠ []) :
    (cleanupOldest c).cache = c.cache.drop (max 1 (c.cache.length / 5)) := by
  unfold cleanupOldest
  rw [if_neg (by simpa [List.isEmpty_iff] using h)]
  show removeKeys c.cache (((sortByTs c.cache).take
      (max 1 ((sortByTs c.cache).length / 5))).map Prod.fst)
    = c.cache.drop (max 1 (c.cache.length / 5))
  rw [sortByTs_of_sorted hts]
  exact removeKeys_take hnd _

theorem cleanupOldest_max_size {α : Type} (c : VisionCache α) :
    (cleanupOldest c).max_size = c.max_size := by
  unfold cleanupOldest
  by_cases h : c.cache.isEmpty
  · rw [if_pos h]
  · rw [if_neg h]

theorem cleanupOldest_ttl {α : Type} (c : VisionCache α) :
    (cleanupOldest c).ttl = c.ttl := by
  unfold cleanupOldest
  by_cases h : c.cache.isEmpty
  · rw [if_pos h]
  · rw [if_neg h]

theorem set_cache_length_le {α : Type} (c : VisionCache α) (k : String) (r : α)
    (t : ℚ) (hm : 1 ≤ c.max_size) (hlen : c.cache.length ≤ c.max_size) :
    (c.set k r t).cache.length ≤ c.max_size := by
  unfold VisionCache.set
  by_cases hful : c.max_size ≤ c.cache.length
  · rw [if_pos hful]
    have hne : c.cache ≠ [] := by
      intro h0
      rw [h0] at hful
      simp only [List.length_nil, Nat.le_zero] at hful
      omega
    have hlt := cleanupOldest_length_lt c hne
    have hd := dictSet_length_le (cleanupOldest c).cache k ⟨r, t⟩
    show (dictSet (cleanupOldest c).cache k ⟨r, t⟩).length ≤ c.max_size
    omega
  · rw [if_neg hful]
    have hd := dictSet_length_le c.cache k ⟨r, t⟩
    show (dictSet c.cache k ⟨r, t⟩).length ≤ c.max_size
    omega

theorem get_cache_length_le {α : Type} (c : VisionCache α) (k : String)
    (now : ℚ) : ((c.get k now).2).cache.length ≤ c.cache.length := by
  unfold VisionCache.get
  split
  · exact le_refl _
  · split
    · exact dictDelete_length_le c.cache k
    · exact le_refl _

theorem get_max_size {α : Type} (c : VisionCache α) (k : String) (now : ℚ) :
    ((c.get k now).2).max_size = c.max_size := by
  unfold VisionCache.get
  split
  · rfl
  · split
    · rfl
    · rfl

theorem set_max_size {α : Type} (c : VisionCache α) (k : String) (r : α)
    (t : ℚ) : (c.set k r t).max_size = c.max_size := by
  unfold VisionCache.set
  by_cases hful : c.max_size ≤ c.cache.length
  · rw [if_pos hful]
    exact cleanupOldest_max_size c
  · rw [if_neg hful]

theorem applyOp_max_size {α : Type} (c : VisionCache α) (op : CacheOp α) :
    (applyOp c op).max_size = c.max_size := by
  cases op with
  | get k now => exact get_max_size c k now
  | set k r now => exact set_max_size c k r now
  | clear => rfl

theorem applyOp_length_le {α : Type} (c : VisionCache α) (op : CacheOp α)
    (hm : 1 ≤ c.max_size) (hlen : c.cache.length ≤ c.max_size) :
    (applyOp c op).cache.length ≤ c.max_size := by
  cases op with
  | get k now => exact le_trans (get_cache_length_le c k now) hlen
  | set k r now => exact set_cache_length_le c k r now hm hlen
  | clear => exact Nat.zero_le _

theorem applyOps_length_le {α : Type} (c : VisionCache α)
    (ops : List (CacheOp α)) (hm : 1 ≤ c.max_size)
    (hlen : c.cache.length ≤ c.max_size) :
    (applyOps c ops).cache.length ≤ (applyOps c ops).max_size ∧
    (applyOps c ops).max_size = c.max_size := by
  induction ops generalizing c with
  | nil => exact ⟨hlen, rfl⟩
  | cons op rest ih =>
    have h1 := applyOp_max_size c op
    have h2 := applyOp_length_le c op hm hlen
    have := ih (applyOp c op) (h1 ▸ hm) (h1 ▸ h2)
    simp only [applyOps, List.foldl_cons] at *
    exact ⟨this.1, this.2.trans h1⟩

theorem set_ttl {α : Type} (c : VisionCache α) (k : String) (r : α) (t : ℚ) :
    (c.set k r t).ttl = c.ttl := by
  unfold VisionCache.set
  by_cases hful : c.max_size ≤ c.cache.length
  · rw [if_pos hful]
    exact cleanupOldest_ttl c
  · rw [if_neg hful]

theorem insertAll_append {α : Type} (c : VisionCache α)
    (l₁ l₂ : List (String × α × ℚ)) :
    insertAll c (l₁ ++ l₂) = insertAll (insertAll c l₁) l₂ := by
  induction l₁ generalizing c with
  | nil => rfl
  | cons it rest ih =>
    obtain ⟨k, r, t⟩ := it
    show insertAll (c.set k r t) (rest ++ l₂) = _
    exact ih (c.set k r t)

theorem insertAll_fresh {α : Type} (items : List (String × α × ℚ))
    (c : VisionCache α)
    (hroom : c.cache.length + items.length ≤ c.max_size)
    (hfresh : ∀ it ∈ items, lookupKey c.cache it.1 = none)
    (hnd : (items.map (fun it => it.1)).Nodup) :
    (insertAll c items).cache =
      c.cache ++ items.map (fun it => (it.1, (⟨it.2.1, it.2.2⟩ : CacheEntry α))) ∧
    (insertAll c items).max_size = c.max_size ∧
    (insertAll c items).ttl = c.ttl := by
  induction items generalizing c with
  | nil => simp [insertAll]
  | cons it rest ih =>
    obtain ⟨k, r, t⟩ := it
    simp only [List.map_cons, List.nodup_cons] at hnd
    have hlt : ¬ (c.max_size ≤ c.cache.length) := by
      simp only [List.length_cons] at hroom
      omega
    have hfresh0 : lookupKey c.cache k = none :=
      hfresh (k, r, t) (List.mem_cons_self _ _)
    have hset : (c.set k r t).cache = c.cache ++ [(k, ⟨r, t⟩)] := by
      unfold VisionCache.set
      rw [if_neg hlt]
      exact dictSet_of_none _ hfresh0
    have hsetm : (c.set k r t).max_size = c.max_size := set_max_size c k r t
    have hsett : (c.set k r t).ttl = c.ttl := set_ttl c k r t
    have hroom' : (c.set k r t).cache.length + rest.length ≤ (c.set k r t).max_size := by
      have h1 : (c.set k r t).cache.length = c.cache.length + 1 := by
        rw [hset]
        simp
      rw [h1, hsetm]
      simp only [List.length_cons] at hroom
      omega
    have hfresh' : ∀ it ∈ rest, lookupKey (c.set k r t).cache it.1 = none := by
      intro it hit
      rw [hset, lookupKey_append_none _ (hfresh it (List.mem_cons_of_mem _ hit))]
      have hne : k ≠ it.1 := by
        intro hh
        exact hnd.1 (hh ▸ List.mem_map_of_mem (fun jt => jt.1) hit)
      simp [lookupKey, hne]
    have ihapp := ih (c.set k r t) hroom' hfresh' hnd.2
    refine ⟨?_, ihapp.2.1.trans hsetm, ihapp.2.2.trans hsett⟩
    show (insertAll (c.set k r t) rest).cache = _
    rw [ihapp.1, hset, List.append_assoc]
    rfl

theorem set_at_capacity {α : Type} (c : VisionCache α) (k : String) (r : α)
    (t : ℚ) (hnd : KeysNodup c) (hts : TsSorted c)
    (hful : c.max_size ≤ c.cache.length) (hcm : 1 ≤ c.max_size) :
    (c.set k r t).cache =
      dictSet (c.cache.drop (max 1 (c.cache.length / 5))) k ⟨r, t⟩ := by
  have hne : c.cache ≠ [] := by
    intro h0
    rw [h0] at hful
    simp only [List.length_nil, Nat.le_zero] at hful
    omega
  unfold VisionCache.set
  rw [if_pos hful]
  show dictSet (cleanupOldest c).cache k ⟨r, t⟩ = _
  rw [cleanupOldest_eq_drop c hnd hts hne]

theorem keys_drop {α : Type} (l : List (String × α)) (n : ℕ) :
    keys (l.drop n) = (keys l).drop n := by
  unfold keys
  rw [List.map_drop]

theorem keysMapFst {α : Type} (front : List (String × α × ℚ)) :
    keys (front.map (fun it => (it.1, (⟨it.2.1, it.2.2⟩ : CacheEntry α)))) =
      front.map (fun it => it.1) := by
  unfold keys
  rw [List.map_map]
  rfl

theorem overflow_oldest_absent {α : Type} (ttl lastT : ℚ) (m : ℕ) (hm : 1 ≤ m)
    (front : List (String × α × ℚ)) (lastK : String) (lastR : α)
    (hflen : front.length = m)
    (hfnd : (front.map (fun it => it.1) ++ [lastK]).Nodup)
    (hfts : front.Pairwise (fun a b => a.2.2 ≤ b.2.2))
    (hfront : front ≠ []) :
    lookupKey (insertAll ⟨ttl, m, []⟩
      (front ++ [(lastK, lastR, lastT)])).cache (front.head hfront).1 = none := by
  obtain ⟨hndf, _, hdisj⟩ := List.nodup_append.mp hfnd
  have hfill := insertAll_fresh front (⟨ttl, m, []⟩ : VisionCache α)
    (by simpa using hflen.le) (fun it _ => rfl) hndf
  rw [insertAll_append]
  show lookupKey (((insertAll ⟨ttl, m, []⟩ front).set lastK lastR lastT).cache)
    (front.head hfront).1 = none
  have hcache : (insertAll (⟨ttl, m, []⟩ : VisionCache α) front).cache =
      front.map (fun it => (it.1, (⟨it.2.1, it.2.2⟩ : CacheEntry α))) := by
    have h := hfill.1
    simpa using h
  have hms : (insertAll (⟨ttl, m, []⟩ : VisionCache α) front).max_size = m :=
    hfill.2.1
  have hlen₁ : (insertAll (⟨ttl, m, []⟩ : VisionCache α) front).cache.length = m := by
    rw [hcache, List.length_map, hflen]
  have hknd : KeysNodup (insertAll (⟨ttl, m, []⟩ : VisionCache α) front) := by
    unfold KeysNodup keys
    rw [hcache, List.map_map]
    exact hndf
  have hts₁ : TsSorted (insertAll (⟨ttl, m, []⟩ : VisionCache α) front) := by
    unfold TsSorted
    rw [hcache]
    exact List.Pairwise.map _ (fun a b h => h) hfts
  rw [set_at_capacity _ lastK lastR lastT hknd hts₁ (by rw [hms, hlen₁])
    (by rw [hms]; exact hm)]
  have hne : (front.head hfront).1 ≠ lastK := by
    intro hh
    exact hdisj (List.mem_map_of_mem (fun it => it.1) (List.head_mem hfront))
      (by rw [hh]; exact List.mem_singleton_self lastK)
  rw [lookupKey_dictSet_ne _ _ hne, lookupKey_eq_none_iff, keys_drop, hcache,
    keysMapFst front, List.length_map]
  obtain ⟨n, hn⟩ := Nat.exists_eq_succ_of_ne_zero
    (Nat.pos_iff_ne_zero.mp
      (lt_of_lt_of_le Nat.zero_lt_one (le_max_left 1 (front.length / 5))))
  rw [hn]
  obtain ⟨h₀, ft, rfl⟩ := List.exists_cons_of_ne_nil hfront
  simp only [List.head_cons, List.map_cons, List.drop_succ_cons]
  simp only [List.map_cons, List.nodup_cons] at hndf
  exact fun hmem => hndf.1 (List.drop_subset n _ hmem)

/-- C3: a cache of capacity `m ≥ 1` never exceeds `m` entries under any
sequence of get/set/clear operations; a `set` against a cache at capacity
first removes the `max 1 (n / 5)` entries with the oldest insertion
timestamps (pure FIFO by insertion time) and then inserts; and after
inserting `m + 1` distinct keys into an empty cache the oldest-inserted key
is absent. -/
theorem visionCache_bounded_fifo_eviction {α : Type} (ttl lastT tset : ℚ)
    (m : ℕ) (hm : 1 ≤ m) (c : VisionCache α) (hnd : KeysNodup c)
    (hts : TsSorted c) (hful : c.max_size ≤ c.cache.length)
    (hcm : 1 ≤ c.max_size) (key : String) (r' : α)
    (front : List (String × α × ℚ)) (lastK : String) (lastR : α)
    (hflen : front.length = m)
    (hfnd : (front.map (fun it => it.1) ++ [lastK]).Nodup)
    (hfts : front.Pairwise (fun a b => a.2.2 ≤ b.2.2))
    (hfront : front ≠ []) :
    (∀ ops : List (CacheOp α),
      (applyOps (⟨ttl, m, []⟩ : VisionCache α) ops).cache.length ≤ m) ∧
    (c.set key r' tset).cache =
      dictSet (c.cache.drop (max 1 (c.cache.length / 5))) key ⟨r', tset⟩ ∧
    lookupKey (insertAll (⟨ttl, m, []⟩ : VisionCache α)
      (front ++ [(lastK, lastR, lastT)])).cache (front.head hfront).1 = none := by
  refine ⟨?_, set_at_capacity c key r' tset hnd hts hful hcm,
    overflow_oldest_absent ttl lastT m hm front lastK lastR hflen hfnd hfts hfront⟩
  intro ops
  have h := applyOps_length_le (⟨ttl, m, []⟩ : VisionCache α) ops hm
    (Nat.zero_le m)
  exact le_of_le_of_eq h.1 h.2

theorem visionCache_bounded_fifo_eviction_witness :
    (∀ ops : List (CacheOp ℕ),
      (applyOps (⟨300, 1, []⟩ : VisionCache ℕ) ops).cache.length ≤ 1) ∧
    ((⟨300, 1, [("k", ⟨5, 0⟩)]⟩ : VisionCache ℕ).set "x" 9 4).cache =
      dictSet ((([("k", (⟨5, 0⟩ : CacheEntry ℕ))]).drop
        (max 1 ([("k", (⟨5, 0⟩ : CacheEntry ℕ))].length / 5))) ) "x" ⟨9, 4⟩ ∧
    lookupKey (insertAll (⟨300, 1, []⟩ : VisionCache ℕ)
      ([("a", 5, 0)] ++ [("b", 6, 2)])).cache
      (([("a", (5 : ℕ), (0 : ℚ))]).head (by simp)).1 = none := by
  have h := visionCache_bounded_fifo_eviction 300 2 4 1 (by decide)
    (⟨300, 1, [("k", ⟨5, 0⟩)]⟩ : VisionCache ℕ)
    (by simp [KeysNodup, keys]) (by simp [TsSorted]) (by decide) (by decide)
    "x" 9 [("a", 5, 0)] "b" 6 (by decide) (by simp) (by simp) (by simp)
  exact h

theorem get_eval_absent {α : Type} {c : VisionCache α} {key : String}
    (now : ℚ) (h : lookupKey c.cache key = none) :
    c.get key now = (none, c) := by
  unfold VisionCache.get
  rw [h]

theorem get_eval_expired {α : Type} {c : VisionCache α} {key : String}
    {e : CacheEntry α} {now : ℚ} (h : lookupKey c.cache key = some e)
    (hexp : now - e.timestamp > c.ttl) :
    c.get key now = (none, { c with cache := dictDelete c.cache key }) := by
  unfold VisionCache.get
  rw [h]
  dsimp only
  rw [if_pos hexp]

theorem get_eval_fresh {α : Type} {c : VisionCache α} {key : String}
    {e : CacheEntry α} {now : ℚ} (h : lookupKey c.cache key = some e)
    (hfresh : ¬ (now - e.timestamp > c.ttl)) :
    c.get key now = (some e.result, c) := by
  unfold VisionCache.get
  rw [h]
  dsimp only
  rw [if_neg hfresh]

/-- C4: `get` returns the stored result exactly when the key is present and
its wall-clock age is within the TTL; on a present-but-expired entry it
returns `none` and removes the entry, so `get_stats` then reports one fewer
total entry. -/
theorem visionCache_get_ttl_spec {α : Type} (c : VisionCache α)
    (hnd : KeysNodup c) (key : String) (now : ℚ) :
    (∀ r : α, (c.get key now).1 = some r ↔
      ∃ e, lookupKey c.cache key = some e ∧ now - e.timestamp ≤ c.ttl ∧
        e.result = r) ∧
    (∀ e, lookupKey c.cache key = some e → c.ttl < now - e.timestamp →
      (c.get key now).1 = none ∧
      lookupKey ((c.get key now).2).cache key = none ∧
      (((c.get key now).2).get_stats now).total_entries + 1 =
        (c.get_stats now).total_entries) := by
  constructor
  · intro r
    cases h : lookupKey c.cache key with
    | none =>
      rw [get_eval_absent now h]
      simp
    | some e =>
      by_cases hexp : now - e.timestamp > c.ttl
      · rw [get_eval_expired h hexp]
        simp only [Prod.fst]
        constructor
        · intro hcontra
          exact absurd hcontra (by simp)
        · rintro ⟨e', he', hle, rfl⟩
          cases he'
          exact absurd hle (not_le.mpr hexp)
      · rw [get_eval_fresh h hexp]
        constructor
        · intro hr
          exact ⟨e, rfl, not_lt.mp hexp, Option.some.inj hr⟩
        · rintro ⟨e', he', hle, rfl⟩
          cases he'
          rfl
  · intro e h hexp
    have hgt : now - e.timestamp > c.ttl := hexp
    rw [get_eval_expired h hgt]
    refine ⟨rfl, lookupKey_dictDelete_self c.cache key, ?_⟩
    show (dictDelete c.cache key).length + 1 = c.cache.length
    exact dictDelete_length hnd h

theorem visionCache_get_ttl_spec_witness :
    (∀ r : ℕ,
      ((⟨10, 5, [("k", ⟨7, 0⟩)]⟩ : VisionCache ℕ).get "k" 100).1 = some r ↔
      ∃ e, lookupKey [("k", (⟨7, 0⟩ : CacheEntry ℕ))] "k" = some e ∧
        (100 : ℚ) - e.timestamp ≤ 10 ∧ e.result = r) ∧
    (∀ e, lookupKey [("k", (⟨7, 0⟩ : CacheEntry ℕ))] "k" = some e →
      (10 : ℚ) < 100 - e.timestamp →
      ((⟨10, 5, [("k", ⟨7, 0⟩)]⟩ : VisionCache ℕ).get "k" 100).1 = none ∧
      lookupKey (((⟨10, 5, [("k", ⟨7, 0⟩)]⟩ : VisionCache ℕ).get "k" 100).2).cache
        "k" = none ∧
      ((((⟨10, 5, [("k", ⟨7, 0⟩)]⟩ : VisionCache ℕ).get "k" 100).2).get_stats
          100).total_entries + 1 =
        ((⟨10, 5, [("k", ⟨7, 0⟩)]⟩ : VisionCache ℕ).get_stats
          100).total_entries) := by
  exact visionCache_get_ttl_spec (⟨10, 5, [("k", ⟨7, 0⟩)]⟩ : VisionCache ℕ)
    (by simp [KeysNodup, keys]) "k" 100

/-! ### Unsynchronized access to `VisionCache` (C10)

`vision_cache.py` defines no lock: unlike `WatchManager`, which guards its
state with `threading.RLock`, every `VisionCache` method performs its
read-modify-write sequence on the shared dict with no mutual exclusion.
`GetPC`/`getStep` split `VisionCache.get` into its two interleavable
micro-steps — the membership test `if key not in self._cache` and the
subsequent entry read / expiry test / `del` — exactly as they appear in the
source; `runSched` interleaves two concurrent `get` calls under an explicit
schedule (`false` = thread 1, `true` = thread 2). -/

inductive GetPC (α : Type) where
  | start
  | afterCheck
  | done (r : Option α)
  | fault (msg : String)
deriving DecidableEq

/-- One micro-step of `VisionCache.get` for one thread.  In `afterCheck`,
`entry = self._cache[key]` raises `KeyError` when the key has vanished
between the membership test and the read. -/
def getStep {α : Type} (ttl now : ℚ) (key : String)
    (cache : List (String × CacheEntry α)) (pc : GetPC α) :
    List (String × CacheEntry α) × GetPC α :=
  match pc with
  | GetPC.start =>
    match lookupKey cache key with
    | none => (cache, GetPC.done none)
    | some _ => (cache, GetPC.afterCheck)
  | GetPC.afterCheck =>
    match lookupKey cache key with
    | none => (cache, GetPC.fault "KeyError")
    | some e =>
      if now - e.timestamp > ttl then (dictDelete cache key, GetPC.done none)
      else (cache, GetPC.done (some e.result))
  | other => (cache, other)

structure TwoGets (α : Type) where
  cache : List (String × CacheEntry α)
  pc1 : GetPC α
  pc2 : GetPC α
deriving DecidableEq

def stepThread {α : Type} (ttl now : ℚ) (key : String) (s : TwoGets α)
    (t : Bool) : TwoGets α :=
  if t then
    let r := getStep ttl now key s.cache s.pc2
    { s with cache := r.1, pc2 := r.2 }
  else
    let r := getStep ttl now key s.cache s.pc1
    { s with cache := r.1, pc1 := r.2 }

def runSched {α : Type} (ttl now : ℚ) (key : String) (s : TwoGets α) :
    List Bool → TwoGets α
  | [] => s
  | t :: rest => runSched ttl now key (stepThread ttl now key s t) rest

/-- C10: evaluation of the unsynchronized `get` at the failing input.  Two
concurrent `get("k")` calls on an entry whose age exceeds the TTL, with the
interleaving check₁‑check₂‑delete₁‑read₂, drive the second thread into an
uncaught `KeyError`; under either serial (mutually-excluded) schedule both
calls finish with `None` and no fault — which is also what the atomic
`VisionCache.get` of the source returns. -/
theorem visionCache_unsynchronized_get_race :
    (runSched 1 10 "k"
      (⟨[("k", ⟨7, 0⟩)], GetPC.start, GetPC.start⟩ : TwoGets ℕ)
      [false, true, false, true]).pc2 = GetPC.fault "KeyError" ∧
    runSched 1 10 "k"
      (⟨[("k", ⟨7, 0⟩)], GetPC.start, GetPC.start⟩ : TwoGets ℕ)
      [false, false, true, true] =
      ⟨[], GetPC.done none, GetPC.done none⟩ ∧
    runSched 1 10 "k"
      (⟨[("k", ⟨7, 0⟩)], GetPC.start, GetPC.start⟩ : TwoGets ℕ)
      [true, true, false, false] =
      ⟨[], GetPC.done none, GetPC.done none⟩ ∧
    ((⟨1, 100, [("k", ⟨7, 0⟩)]⟩ : VisionCache ℕ).get "k" 10).1 = none := by
  refine ⟨?_, ?_, ?_, ?_⟩ <;>
    norm_num [runSched, stepThread, getStep, lookupKey, dictDelete,
      VisionCache.get]

/-! ## Analysis Router (`src/services/vision_engine.py`)

`VisionEngine.process` routes a frame between the online (Google Vision) and
privacy (local Qwen2-VL) backends, with its own plain-dict result cache
`self._cache` keyed by `f"{mode}:{task}:{fingerprint}"`.

The external calls are oracle parameters: `online` packs the whole body of
the `try` in `_process_online` (lazy `_load_google_client` plus
`_call_google_vision`); `privacy` packs `_process_privacy` (lazy
`_load_qwen_model` plus `_call_qwen_vision`, both re-raised unchanged).
`fingerprint` abstracts the pure `_generate_fingerprint` (md5 of the 64×64
grayscale downscale), and `elapsedMs` stands for the measured wall-clock
latency `(time.time() - start_time) * 1000` of a non-cached call. -/

/-- The normalized result dict of `VisionEngine.process` (the `visual_tokens`
field the privacy backend adds is internal to the oracle and omitted). -/
structure VRes where
  text : String
  description : String
  labels : List String
  objects : List String
  mode : String
  latency_ms : ℚ
  cached : Bool
deriving DecidableEq

inductive Backend where
  | online
  | privacy
deriving DecidableEq

/-- `VisionEngine` state: `self.default_mode` (from `VISION_MODE`) and the
plain dict `self._cache`. -/
structure EngineState where
  default_mode : String
  cache : List (String × VRes)
deriving DecidableEq

/-- The `ValueError` message raised by `_process_online` when the online
backend fails and `QWEN_ENABLED` is not `true`. -/
def noFallbackMsg : String :=
  "Google Vision API failed and privacy mode (Qwen) is disabled. Please connect Google Vision API via OAuth or enable QWEN_ENABLED=true in .env"

/-- `mode = mode or self.default_mode`: Python treats both `None` and the
empty string as falsy. -/
def resolveMode (st : EngineState) (modeOpt : Option String) : String :=
  match modeOpt with
  | none => st.default_mode
  | some s => if s = "" then st.default_mode else s

/-- `cache_key = f"{mode}:{task}:{fingerprint}"`. -/
def cacheKeyOf (st : EngineState) (modeOpt : Option String) (task : String)
    (fp : String) : String :=
  resolveMode st modeOpt ++ ":" ++ task ++ ":" ++ fp

/-- `VisionEngine._process_online`: try the online oracle; on failure fall
back to the privacy path when `QWEN_ENABLED` is `true`, else raise
`noFallbackMsg`.  The second component records which backends were
dispatched to. -/
def processOnline {Img Opt : Type}
    (online privacy : Img → String → Opt → Except String VRes)
    (qwenEnabled : Bool) (img : Img) (task : String) (options : Opt) :
    Except String VRes × List Backend :=
  match online img task options with
  | Except.ok r => (Except.ok r, [Backend.online])
  | Except.error _ =>
    if qwenEnabled then
      (privacy img task options, [Backend.online, Backend.privacy])
    else
      (Except.error noFallbackMsg, [Backend.online])

/-- Mode routing in `VisionEngine.process` (the quotes the source puts
around the mode names in the `ValueError` text are omitted here). -/
def dispatchBackend {Img Opt : Type}
    (online privacy : Img → String → Opt → Except String VRes)
    (qwenEnabled : Bool) (mode : String) (img : Img) (task : String)
    (options : Opt) : Except String VRes × List Backend :=
  if mode = "online" then processOnline online privacy qwenEnabled img task options
  else if mode = "privacy" then (privacy img task options, [Backend.privacy])
  else (Except.error ("Invalid mode: " ++ mode ++ ". Must be online or privacy"), [])

/-- `self._cache[cache_key] = result`. -/
def storeResult (st : EngineState) (key : String) (r : VRes) : EngineState :=
  { st with cache := dictSet st.cache key r }

/-- Metadata annotation of the non-cached success path:
`result[mode] = mode; result[latency_ms] = elapsed; result[cached] = False`. -/
def annotate (r : VRes) (mode : String) (elapsedMs : ℚ) : VRes :=
  { r with mode := mode, latency_ms := elapsedMs, cached := false }

/-- `VisionEngine.process`: cache check first (a hit returns a copy with
`cached = True` and `latency_ms = 0` and touches no backend), then mode
routing, then metadata annotation and cache insertion on success. -/
def process {Img Opt : Type} (fingerprint : Img → String)
    (online privacy : Img → String → Opt → Except String VRes)
    (qwenEnabled : Bool) (st : EngineState) (img : Img)
    (modeOpt : Option String) (task : String) (options : Opt)
    (elapsedMs : ℚ) :
    Except String VRes × EngineState × List Backend :=
  match lookupKey st.cache (cacheKeyOf st modeOpt task (fingerprint img)) with
  | some cached_result =>
    (Except.ok { cached_result with cached := true, latency_ms := 0 }, st, [])
  | none =>
    match dispatchBackend online privacy qwenEnabled (resolveMode st modeOpt)
        img task options with
    | (Except.ok result0, bs) =>
      (Except.ok (annotate result0 (resolveMode st modeOpt) elapsedMs),
        storeResult st (cacheKeyOf st modeOpt task (fingerprint img))
          (annotate result0 (resolveMode st modeOpt) elapsedMs),
        bs)
    | (Except.error e, bs) => (Except.error e, st, bs)

structure CallArgs (Img Opt : Type) where
  img : Img
  modeOpt : Option String
  task : String
  options : Opt
  elapsed : ℚ
  qwen : Bool

/-- The engine state left by a sequence of `process` calls. -/
def processSeq {Img Opt : Type} (fingerprint : Img → String)
    (online privacy : Img → String → Opt → Except String VRes)
    (st : EngineState) : List (CallArgs Img Opt) → EngineState
  | [] => st
  | a :: rest =>
    processSeq fingerprint online privacy
      (process fingerprint online privacy a.qwen st a.img a.modeOpt a.task
        a.options a.elapsed).2.1 rest

theorem process_hit {Img Opt : Type} (fingerprint : Img → String)
    (online privacy : Img → String → Opt → Except String VRes)
    (qwen : Bool) (st : EngineState) (img : Img) (modeOpt : Option String)
    (task : String) (options : Opt) (elapsed : ℚ) {rc : VRes}
    (h : lookupKey st.cache (cacheKeyOf st modeOpt task (fingerprint img)) =
      some rc) :
    process fingerprint online privacy qwen st img modeOpt task options
      elapsed = (Except.ok { rc with cached := true, latency_ms := 0 }, st, []) := by
  unfold process
  rw [h]

theorem process_miss_ok {Img Opt : Type} (fingerprint : Img → String)
    (online privacy : Img → String → Opt → Except String VRes)
    (qwen : Bool) (st : EngineState) (img : Img) (modeOpt : Option String)
    (task : String) (options : Opt) (elapsed : ℚ) {r0 : VRes}
    {bs : List Backend}
    (h : lookupKey st.cache (cacheKeyOf st modeOpt task (fingerprint img)) =
      none)
    (hd : dispatchBackend online privacy qwen (resolveMode st modeOpt) img
      task options = (Except.ok r0, bs)) :
    process fingerprint online privacy qwen st img modeOpt task options
      elapsed =
      (Except.ok (annotate r0 (resolveMode st modeOpt) elapsed),
        storeResult st (cacheKeyOf st modeOpt task (fingerprint img))
          (annotate r0 (resolveMode st modeOpt) elapsed),
        bs) := by
  unfold process
  rw [h]
  dsimp only
  rw [hd]

theorem process_miss_error {Img Opt : Type} (fingerprint : Img → String)
    (online privacy : Img → String → Opt → Except String VRes)
    (qwen : Bool) (st : EngineState) (img : Img) (modeOpt : Option String)
    (task : String) (options : Opt) (elapsed : ℚ) {e : String}
    {bs : List Backend}
    (h : lookupKey st.cache (cacheKeyOf st modeOpt task (fingerprint img)) =
      none)
    (hd : dispatchBackend online privacy qwen (resolveMode st modeOpt) img
      task options = (Except.error e, bs)) :
    process fingerprint online privacy qwen st img modeOpt task options
      elapsed = (Except.error e, st, bs) := by
  unfold process
  rw [h]
  dsimp only
  rw [hd]

theorem cacheKeyOf_congr {st st' : EngineState}
    (h : st'.default_mode = st.default_mode) (modeOpt : Option String)
    (task : String) {fp fp' : String} (hfp : fp' = fp) :
    cacheKeyOf st' modeOpt task fp' = cacheKeyOf st modeOpt task fp := by
  unfold cacheKeyOf resolveMode
  cases modeOpt with
  | none => rw [h, hfp]
  | some s => rw [h, hfp]

/-- C1: once `process` has completed successfully, a second call with the
same mode option, task, and frame fingerprint finds the key cached and
returns the stored result annotated with `cached = true` and
`latency_ms = 0`, leaves the engine state unchanged, and dispatches to no
backend. -/
theorem visionEngine_cache_hit_semantics {Img Opt : Type}
    (fingerprint : Img → String)
    (online privacy : Img → String → Opt → Except String VRes)
    (qwen qwen' : Bool) (st st₁ : EngineState) (img img' : Img)
    (modeOpt : Option String) (task : String) (options options' : Opt)
    (elapsed elapsed' : ℚ) (r₁ : VRes) (bs₁ : List Backend)
    (hfp : fingerprint img' = fingerprint img)
    (h1 : process fingerprint online privacy qwen st img modeOpt task options
      elapsed = (Except.ok r₁, st₁, bs₁)) :
    ∃ rc, lookupKey st₁.cache (cacheKeyOf st modeOpt task (fingerprint img)) =
        some rc ∧
      process fingerprint online privacy qwen' st₁ img' modeOpt task options'
        elapsed' =
        (Except.ok { rc with cached := true, latency_ms := 0 }, st₁, []) := by
  cases hl : lookupKey st.cache (cacheKeyOf st modeOpt task (fingerprint img)) with
  | some rc =>
    rw [process_hit fingerprint online privacy qwen st img modeOpt task
      options elapsed hl] at h1
    injection h1 with h1a h1r
    injection h1r with h1b h1c
    subst h1b
    refine ⟨rc, hl, ?_⟩
    rw [process_hit fingerprint online privacy qwen' st img' modeOpt task
      options' elapsed' (by rw [cacheKeyOf_congr rfl modeOpt task hfp]; exact hl)]
  | none =>
    rcases hd : dispatchBackend online privacy qwen (resolveMode st modeOpt)
        img task options with ⟨res, bs⟩
    cases res with
    | ok r0 =>
      rw [process_miss_ok fingerprint online privacy qwen st img modeOpt task
        options elapsed hl hd] at h1
      injection h1 with h1a h1r
      injection h1r with h1b h1c
      subst h1b
      have hlook : lookupKey
          (storeResult st (cacheKeyOf st modeOpt task (fingerprint img))
            (annotate r0 (resolveMode st modeOpt) elapsed)).cache
          (cacheKeyOf st modeOpt task (fingerprint img)) =
          some (annotate r0 (resolveMode st modeOpt) elapsed) :=
        lookupKey_dictSet_self st.cache _ _
      refine ⟨annotate r0 (resolveMode st modeOpt) elapsed, hlook, ?_⟩
      have hck : cacheKeyOf
          (storeResult st (cacheKeyOf st modeOpt task (fingerprint img))
            (annotate r0 (resolveMode st modeOpt) elapsed)) modeOpt task
          (fingerprint img') =
          cacheKeyOf st modeOpt task (fingerprint img) :=
        cacheKeyOf_congr rfl modeOpt task hfp
      rw [process_hit fingerprint online privacy qwen' _ img' modeOpt task
        options' elapsed' (by rw [hck]; exact hlook)]
    | error e =>
      rw [process_miss_error fingerprint online privacy qwen st img modeOpt
        task options elapsed hl hd] at h1
      injection h1 with h1a h1r
      cases h1a

theorem visionEngine_cache_hit_semantics_witness :
    ∃ rc,
      lookupKey
        ((⟨"privacy", [("privacy:describe:f",
          (⟨"", "d", [], [], "privacy", 3, false⟩ : VRes))]⟩ :
            EngineState)).cache
        (cacheKeyOf (⟨"privacy", []⟩ : EngineState) (some "privacy")
          "describe" ((fun _ : Unit => "f") ())) = some rc ∧
      process (fun _ : Unit => "f")
        (fun _ _ _ => Except.error "no client")
        (fun _ _ _ => Except.ok (⟨"", "d", [], [], "", 0, false⟩ : VRes))
        true
        (⟨"privacy", [("privacy:describe:f",
          (⟨"", "d", [], [], "privacy", 3, false⟩ : VRes))]⟩ : EngineState)
        () (some "privacy") "describe" () 7 =
        (Except.ok { rc with cached := true, latency_ms := 0 },
          (⟨"privacy", [("privacy:describe:f",
            (⟨"", "d", [], [], "privacy", 3, false⟩ : VRes))]⟩ : EngineState),
          []) := by
  exact visionEngine_cache_hit_semantics (fun _ : Unit => "f")
    (fun _ _ _ => Except.error "no client")
    (fun _ _ _ => Except.ok (⟨"", "d", [], [], "", 0, false⟩ : VRes))
    true true (⟨"privacy", []⟩ : EngineState) _ () () (some "privacy")
    "describe" () () 3 7
    (⟨"", "d", [], [], "privacy", 3, false⟩ : VRes) [Backend.privacy] rfl rfl

theorem process_cache_monotone {Img Opt : Type} (fingerprint : Img → String)
    (online privacy : Img → String → Opt → Except String VRes)
    (qwen : Bool) (st : EngineState) (img : Img) (modeOpt : Option String)
    (task : String) (options : Opt) (elapsed : ℚ) (k : String) (v : VRes)
    (hv : lookupKey st.cache k = some v) :
    lookupKey (process fingerprint online privacy qwen st img modeOpt task
      options elapsed).2.1.cache k = some v := by
  cases hl : lookupKey st.cache (cacheKeyOf st modeOpt task (fingerprint img)) with
  | some rc =>
    rw [process_hit fingerprint online privacy qwen st img modeOpt task
      options elapsed hl]
    exact hv
  | none =>
    rcases hd : dispatchBackend online privacy qwen (resolveMode st modeOpt)
        img task options with ⟨res, bs⟩
    cases res with
    | ok r0 =>
      rw [process_miss_ok fingerprint online privacy qwen st img modeOpt task
        options elapsed hl hd]
      show lookupKey (dictSet st.cache
        (cacheKeyOf st modeOpt task (fingerprint img))
        (annotate r0 (resolveMode st modeOpt) elapsed)) k = some v
      by_cases hk : k = cacheKeyOf st modeOpt task (fingerprint img)
      · subst hk
        rw [hl] at hv
        cases hv
      · rw [lookupKey_dictSet_ne _ _ hk]
        exact hv
    | error e =>
      rw [process_miss_error fingerprint online privacy qwen st img modeOpt
        task options elapsed hl hd]
      exact hv

/-- C9: the router cache `VisionEngine._cache` only ever grows: after any
sequence of `process` calls, every previously cached entry is still present
unchanged — no TTL expiry and no size-based eviction ever occurs. -/
theorem visionEngine_cache_never_evicted {Img Opt : Type}
    (fingerprint : Img → String)
    (online privacy : Img → String → Opt → Except String VRes)
    (st : EngineState) (calls : List (CallArgs Img Opt)) (k : String)
    (v : VRes) (hv : lookupKey st.cache k = some v) :
    lookupKey (processSeq fingerprint online privacy st calls).cache k =
      some v := by
  induction calls generalizing st with
  | nil => exact hv
  | cons a rest ih =>
    show lookupKey (processSeq fingerprint online privacy
      (process fingerprint online privacy a.qwen st a.img a.modeOpt a.task
        a.options a.elapsed).2.1 rest).cache k = some v
    exact ih _ (process_cache_monotone fingerprint online privacy a.qwen st
      a.img a.modeOpt a.task a.options a.elapsed k v hv)

theorem visionEngine_cache_never_evicted_witness :
    lookupKey (processSeq (fun _ : Unit => "f")
      (fun _ _ _ => Except.ok (⟨"t", "", [], [], "", 0, false⟩ : VRes))
      (fun _ _ _ => Except.error "qwen down")
      (⟨"online", [("key0", (⟨"", "", [], [], "online", 1, false⟩ : VRes))]⟩ :
        EngineState)
      [⟨(), none, "analyze", (), 5, false⟩, ⟨(), some "privacy", "describe",
        (), 6, true⟩]).cache "key0" =
      some (⟨"", "", [], [], "online", 1, false⟩ : VRes) := by
  exact visionEngine_cache_never_evicted (fun _ : Unit => "f")
    (fun _ _ _ => Except.ok (⟨"t", "", [], [], "", 0, false⟩ : VRes))
    (fun _ _ _ => Except.error "qwen down")
    (⟨"online", [("key0", (⟨"", "", [], [], "online", 1, false⟩ : VRes))]⟩ :
      EngineState)
    [⟨(), none, "analyze", (), 5, false⟩, ⟨(), some "privacy", "describe",
      (), 6, true⟩] "key0" (⟨"", "", [], [], "online", 1, false⟩ : VRes) rfl

/-- C2: when the online backend raises during online-mode processing, the
call is retried via the privacy backend and that outcome is returned when
`QWEN_ENABLED=true`; with the fallback disabled the call fails with an error
naming both remediation paths (OAuth credential configuration, and enabling
`QWEN_ENABLED`). -/
theorem visionEngine_online_failure_policy {Img Opt : Type}
    (online privacy : Img → String → Opt → Except String VRes)
    (img : Img) (task : String) (options : Opt) (emsg : String)
    (hfail : online img task options = Except.error emsg) :
    processOnline online privacy true img task options =
      (privacy img task options, [Backend.online, Backend.privacy]) ∧
    processOnline online privacy false img task options =
      (Except.error noFallbackMsg, [Backend.online]) ∧
    (∃ s₁ s₂ : String, noFallbackMsg =
      s₁ ++ "connect Google Vision API via OAuth" ++ s₂) ∧
    (∃ s₃ s₄ : String, noFallbackMsg =
      s₃ ++ "enable QWEN_ENABLED=true" ++ s₄) := by
  refine ⟨?_, ?_, ?_, ?_⟩
  · unfold processOnline
    rw [hfail]
    rfl
  · unfold processOnline
    rw [hfail]
    rfl
  · exact ⟨"Google Vision API failed and privacy mode (Qwen) is disabled. Please ",
      " or enable QWEN_ENABLED=true in .env", rfl⟩
  · exact ⟨"Google Vision API failed and privacy mode (Qwen) is disabled. Please connect Google Vision API via OAuth or ",
      " in .env", rfl⟩

theorem visionEngine_online_failure_policy_witness :
    processOnline
      (fun (_ : Unit) (_ : String) (_ : Unit) => Except.error "api down")
      (fun (_ : Unit) (_ : String) (_ : Unit) =>
        Except.ok (⟨"t", "", [], [], "", 0, false⟩ : VRes))
      true () "describe" () =
      ((fun _ _ _ => Except.ok (⟨"t", "", [], [], "", 0, false⟩ : VRes))
        () "describe" (), [Backend.online, Backend.privacy]) ∧
    processOnline
      (fun (_ : Unit) (_ : String) (_ : Unit) => Except.error "api down")
      (fun (_ : Unit) (_ : String) (_ : Unit) =>
        Except.ok (⟨"t", "", [], [], "", 0, false⟩ : VRes))
      false () "describe" () =
      (Except.error noFallbackMsg, [Backend.online]) ∧
    (∃ s₁ s₂ : String, noFallbackMsg =
      s₁ ++ "connect Google Vision API via OAuth" ++ s₂) ∧
    (∃ s₃ s₄ : String, noFallbackMsg =
      s₃ ++ "enable QWEN_ENABLED=true" ++ s₄) := by
  exact visionEngine_online_failure_policy
    (fun _ _ _ => Except.error "api down")
    (fun _ _ _ => Except.ok (⟨"t", "", [], [], "", 0, false⟩ : VRes))
    () "describe" () "api down" rfl

/-! ## Monitor Loop (`src/services/watch_manager.py`)

`_watch_loop` executes one tick per iteration until the stop event is set.
Capture, OCR and VLM are external oracles supplied per tick; the per-tick
wall clock is supplied as `now`.  Events are the `self._callback(kind,
payload)` invocations (a raising callback is caught and logged, which does
not change the invocation sequence). -/

/-- The `WatchConfig` dataclass with its source defaults. -/
structure WatchConfig where
  interval_ms : ℤ := 2000
  change_threshold : ℚ := 8 / 100
  run_ocr : Bool := false
  run_vlm : Bool := false
  task : Option String := none
  region : Option (ℤ × ℤ × ℤ × ℤ) := none
deriving DecidableEq

/-- The data of a captured frame the loop consumes: its fingerprint
(`ScreenshotService.generate_fingerprint(img)`) and `img.width`,
`img.height`. -/
structure Frame where
  fp : List ℕ
  width : ℕ
  height : ℕ
deriving DecidableEq

/-- One OCR item `{text, bbox, confidence}` from the external OCR backend. -/
structure OcrItem where
  text : String
  bbox : List ℤ
  confidence : ℚ
deriving DecidableEq

/-- `payload["ocr"] = {"items": items, "concat": " ".join(...)}`. -/
structure OcrPayload where
  items : List OcrItem
  concat : String
deriving DecidableEq

/-- The tick payload dict; keys never assigned are `none`. -/
structure TickPayload where
  timestamp : ℚ
  delta : ℚ
  width : ℕ
  height : ℕ
  region : Option (ℤ × ℤ × ℤ × ℤ)
  ocr : Option OcrPayload
  ocr_error : Option String
  description : Option String
  vlm_error : Option String
deriving DecidableEq

/-- A callback invocation `self._callback(kind, payload)`. -/
inductive WatchEvent where
  | tick (payload : TickPayload)
  | change (payload : TickPayload)
  | error (message : String)
deriving DecidableEq

/-- `round(delta, 5)`.  Python rounds floats half-to-even; exact ties play
no role below, so half-up rounding of the exact rational stands in. -/
def round5 (q : ℚ) : ℚ := ((round (q * 100000) : ℤ) : ℚ) / 100000

/-- External per-tick inputs: the capture-and-fingerprint outcome, the wall
clock at payload build, and the OCR / VLM oracle outcomes. -/
structure TickInput where
  captureRes : Except String Frame
  now : ℚ
  ocrRes : Except String (List OcrItem)
  vlmRes : Except String String

/-- The payload a successful tick builds: base payload, then the OCR
attachment when OCR is configured and its engine exists, then the VLM
attachment when VLM is configured, enabled, and the change condition holds. -/
def buildPayload (cfg : WatchConfig) (ocrOn vlmOn : Bool)
    (lastFp : Option (List ℕ)) (inp : TickInput) (frame : Frame) (δ : ℚ) :
    TickPayload :=
  let payload0 : TickPayload :=
    { timestamp := inp.now
      delta := round5 δ
      width := frame.width
      height := frame.height
      region := cfg.region
      ocr := none
      ocr_error := none
      description := none
      vlm_error := none }
  let payload1 :=
    if cfg.run_ocr ∧ ocrOn then
      match inp.ocrRes with
      | Except.ok items =>
        { payload0 with ocr := some ⟨items, String.intercalate " " (items.map (fun it => it.text))⟩ }
      | Except.error e => { payload0 with ocr_error := some e }
    else payload0
  if cfg.run_vlm ∧ vlmOn ∧ (lastFp = none ∨ δ ≥ cfg.change_threshold) then
    match inp.vlmRes with
    | Except.ok d => { payload1 with description := some d }
    | Except.error e => { payload1 with vlm_error := some e }
  else payload1

/-- One iteration of the `while` body of `WatchManager._watch_loop`.
`ocrOn` / `vlmOn` are the engine availability captured at loop start
(`OCREngine.get_instance() if run_ocr else None`, and
`vlm_engine and vlm_engine.is_enabled()`); `cb` is whether a callback was
supplied.  Returns the callback invocations and the updated
`self._last_fingerprint`. -/
def watchTick (cfg : WatchConfig) (ocrOn vlmOn cb : Bool)
    (lastFp : Option (List ℕ)) (inp : TickInput) :
    List WatchEvent × Option (List ℕ) :=
  match inp.captureRes with
  | Except.error e => ((if cb then [WatchEvent.error e] else []), lastFp)
  | Except.ok frame =>
    match calculate_diff lastFp (some frame.fp) with
    | none =>
      ((if cb then [WatchEvent.error "division by zero"] else []), lastFp)
    | some δ =>
      ((if cb then [WatchEvent.tick (buildPayload cfg ocrOn vlmOn lastFp inp frame δ)] else []) ++
        (if lastFp = none ∨ δ ≥ cfg.change_threshold then
          (if cb then [WatchEvent.change (buildPayload cfg ocrOn vlmOn lastFp inp frame δ)] else [])
        else []),
        some frame.fp)

/-- The loop over a finite schedule of tick inputs (the schedule ends when
`stop()` sets the stop event); collects each tick's events in order. -/
def watchLoop (cfg : WatchConfig) (ocrOn vlmOn cb : Bool)
    (lastFp : Option (List ℕ)) :
    List TickInput → List (List WatchEvent) × Option (List ℕ)
  | [] => ([], lastFp)
  | inp :: rest =>
    ((watchTick cfg ocrOn vlmOn cb lastFp inp).1 ::
      (watchLoop cfg ocrOn vlmOn cb
        (watchTick cfg ocrOn vlmOn cb lastFp inp).2 rest).1,
      (watchLoop cfg ocrOn vlmOn cb
        (watchTick cfg ocrOn vlmOn cb lastFp inp).2 rest).2)

theorem watchLoop_cons (cfg : WatchConfig) (ocrOn vlmOn cb : Bool)
    (lastFp : Option (List ℕ)) (inp : TickInput) (rest : List TickInput) :
    watchLoop cfg ocrOn vlmOn cb lastFp (inp :: rest) =
      ((watchTick cfg ocrOn vlmOn cb lastFp inp).1 ::
        (watchLoop cfg ocrOn vlmOn cb
          (watchTick cfg ocrOn vlmOn cb lastFp inp).2 rest).1,
        (watchLoop cfg ocrOn vlmOn cb
          (watchTick cfg ocrOn vlmOn cb lastFp inp).2 rest).2) := rfl

theorem watchTick_ok (cfg : WatchConfig) (ocrOn vlmOn : Bool)
    (lastFp : Option (List ℕ)) (inp : TickInput) (frame : Frame) (δ : ℚ)
    (hcap : inp.captureRes = Except.ok frame)
    (hdiff : calculate_diff lastFp (some frame.fp) = some δ) :
    watchTick cfg ocrOn vlmOn true lastFp inp =
      (WatchEvent.tick (buildPayload cfg ocrOn vlmOn lastFp inp frame δ) ::
        (if lastFp = none ∨ δ ≥ cfg.change_threshold then
          [WatchEvent.change (buildPayload cfg ocrOn vlmOn lastFp inp frame δ)]
        else []),
        some frame.fp) := by
  unfold watchTick
  rw [hcap]
  dsimp only
  rw [hdiff]
  dsimp only
  by_cases hc : lastFp = none ∨ δ ≥ cfg.change_threshold
  · rw [if_pos hc, if_pos hc]
    simp
  · rw [if_neg hc, if_neg hc]
    simp

theorem calculate_diff_fp_isSome (lastFp : Option (List ℕ)) (fp : List ℕ)
    (hfp : fp ≠ []) : ∃ δ, calculate_diff lastFp (some fp) = some δ := by
  cases lastFp with
  | none => exact ⟨1, rfl⟩
  | some x =>
    by_cases hxl : x.length = fp.length
    · refine ⟨_, calculate_diff_eq x fp hxl ?_⟩
      rw [hxl]
      exact fun h => hfp (List.length_eq_zero.mp h)
    · exact ⟨1, by simp [calculate_diff, hxl]⟩

theorem watchLoop_no_change (cfg : WatchConfig) (ocrOn vlmOn : Bool)
    (frame : Frame) (hfp : frame.fp ≠ []) (hth : 0 < cfg.change_threshold)
    (inputs : List TickInput)
    (hin : ∀ i ∈ inputs, i.captureRes = Except.ok frame) :
    (∀ l ∈ (watchLoop cfg ocrOn vlmOn true (some frame.fp) inputs).1,
      ∀ ev ∈ l, ∀ q, ev ≠ WatchEvent.change q) ∧
    (watchLoop cfg ocrOn vlmOn true (some frame.fp) inputs).2 =
      some frame.fp := by
  induction inputs with
  | nil => exact ⟨by simp [watchLoop], rfl⟩
  | cons inp rest ih =>
    have hcap := hin inp (List.mem_cons_self _ _)
    have hdiff : calculate_diff (some frame.fp) (some frame.fp) = some 0 := by
      rw [calculate_diff_eq frame.fp frame.fp rfl
        (fun h => hfp (List.length_eq_zero.mp h)), sumAbsDiff_self]
      norm_num
    have hcond : ¬ ((some frame.fp : Option (List ℕ)) = none ∨
        (0 : ℚ) ≥ cfg.change_threshold) := by
      rintro (h | h)
      · simp at h
      · exact absurd h (not_le.mpr hth)
    have htick := watchTick_ok cfg ocrOn vlmOn (some frame.fp) inp frame 0
      hcap hdiff
    rw [if_neg hcond] at htick
    obtain ⟨ihl, ihfp⟩ := ih (fun i hi => hin i (List.mem_cons_of_mem _ hi))
    constructor
    · intro l hl
      rw [watchLoop_cons, htick] at hl
      dsimp only at hl
      rcases List.mem_cons.mp hl with rfl | hl'
      · intro ev hev q
        rcases List.mem_cons.mp hev with rfl | hev'
        · exact fun hcontra => WatchEvent.noConfusion hcontra
        · simp at hev'
      · exact ihl l hl'
    · rw [watchLoop_cons, htick]
      dsimp only
      exact ihfp

/-- C6: every successful iteration emits a `tick` event; a `change` event
with the same payload is additionally emitted exactly when the stored
baseline is absent or the diff score reaches the threshold — for every
setting of the OCR/VLM switches; and with a static frame source and
threshold 0.08, `change` fires on the first tick and on no later tick. -/
theorem watchLoop_change_semantics (cfg : WatchConfig) (ocrOn vlmOn : Bool)
    (frame : Frame) (inp₀ : TickInput) (inputs : List TickInput)
    (hfp : frame.fp ≠ [])
    (hcap₀ : inp₀.captureRes = Except.ok frame)
    (hin : ∀ i ∈ inputs, i.captureRes = Except.ok frame)
    (hth : cfg.change_threshold = 8 / 100) (hvlm : cfg.run_vlm = true) :
    (∀ (cfg' : WatchConfig) (ocrOn' vlmOn' : Bool) (lastFp : Option (List ℕ))
      (inp : TickInput) (frame' : Frame) (δ : ℚ),
      inp.captureRes = Except.ok frame' →
      calculate_diff lastFp (some frame'.fp) = some δ →
      watchTick cfg' ocrOn' vlmOn' true lastFp inp =
        (WatchEvent.tick (buildPayload cfg' ocrOn' vlmOn' lastFp inp frame' δ) ::
          (if lastFp = none ∨ δ ≥ cfg'.change_threshold then
            [WatchEvent.change (buildPayload cfg' ocrOn' vlmOn' lastFp inp frame' δ)]
          else []),
          some frame'.fp)) ∧
    (∃ p evss,
      watchLoop cfg ocrOn vlmOn true none (inp₀ :: inputs) =
        ([WatchEvent.tick p, WatchEvent.change p] :: evss, some frame.fp) ∧
      ∀ l ∈ evss, ∀ ev ∈ l, ∀ q, ev ≠ WatchEvent.change q) := by
  constructor
  · intro cfg' ocrOn' vlmOn' lastFp inp frame' δ hcap hdiff
    exact watchTick_ok cfg' ocrOn' vlmOn' lastFp inp frame' δ hcap hdiff
  · have htick₀ := watchTick_ok cfg ocrOn vlmOn none inp₀ frame 1 hcap₀ rfl
    rw [if_pos (Or.inl rfl)] at htick₀
    obtain ⟨hnc, hfp2⟩ := watchLoop_no_change cfg ocrOn vlmOn frame hfp
      (by rw [hth]; norm_num) inputs hin
    refine ⟨buildPayload cfg ocrOn vlmOn none inp₀ frame 1,
      (watchLoop cfg ocrOn vlmOn true (some frame.fp) inputs).1, ?_, hnc⟩
    rw [watchLoop_cons, htick₀]
    dsimp only
    rw [hfp2]

theorem watchLoop_change_semantics_witness :
    (∀ (cfg' : WatchConfig) (ocrOn' vlmOn' : Bool) (lastFp : Option (List ℕ))
      (inp : TickInput) (frame' : Frame) (δ : ℚ),
      inp.captureRes = Except.ok frame' →
      calculate_diff lastFp (some frame'.fp) = some δ →
      watchTick cfg' ocrOn' vlmOn' true lastFp inp =
        (WatchEvent.tick (buildPayload cfg' ocrOn' vlmOn' lastFp inp frame' δ) ::
          (if lastFp = none ∨ δ ≥ cfg'.change_threshold then
            [WatchEvent.change (buildPayload cfg' ocrOn' vlmOn' lastFp inp frame' δ)]
          else []),
          some frame'.fp)) ∧
    (∃ p evss,
      watchLoop
        ({ change_threshold := 8 / 100, run_vlm := true } : WatchConfig)
        false true true none
        [⟨Except.ok ⟨[0], 1, 1⟩, 0, Except.ok [], Except.ok "d"⟩,
         ⟨Except.ok ⟨[0], 1, 1⟩, 2, Except.ok [], Except.ok "d"⟩] =
        ([WatchEvent.tick p, WatchEvent.change p] :: evss,
          some (⟨[0], 1, 1⟩ : Frame).fp) ∧
      ∀ l ∈ evss, ∀ ev ∈ l, ∀ q, ev ≠ WatchEvent.change q) := by
  exact watchLoop_change_semantics
    ({ change_threshold := 8 / 100, run_vlm := true } : WatchConfig)
    false true (⟨[0], 1, 1⟩ : Frame)
    ⟨Except.ok ⟨[0], 1, 1⟩, 0, Except.ok [], Except.ok "d"⟩
    [⟨Except.ok ⟨[0], 1, 1⟩, 2, Except.ok [], Except.ok "d"⟩]
    (by simp) rfl (by
      intro i hi
      rcases List.mem_singleton.mp hi with rfl
      rfl) rfl rfl

/-! ### Watch lifecycle (`WatchManager.start` / `WatchManager.stop`)

All of `start` / `stop` / `status` run under `self._lock`, so their bodies
are modelled as atomic state transformations.  `thread` is `self._thread`
(tagged with a spawn counter so distinct `threading.Thread` objects are
distinguishable); `spawns` counts `Thread(...).start()` calls and `active`
the loop threads currently alive — bookkeeping for the single-context
invariant.  `stop` joins the thread (the loop exits at its next stop-event
check), so `active` drops back to zero. -/

structure WMState (CB : Type) where
  thread : Option ℕ
  spawns : ℕ
  active : ℕ
  stopSet : Bool
  config : WatchConfig
  lastFingerprint : Option (List ℕ)
  isRunning : Bool
  callback : Option CB

/-- `WatchManager.__init__`. -/
def WMState.init (CB : Type) : WMState CB :=
  { thread := none
    spawns := 0
    active := 0
    stopSet := false
    config := {}
    lastFingerprint := none
    isRunning := false
    callback := none }

/-- `WatchManager.start(config, callback)`: reconfigure in place when
already running; otherwise store config and callback, clear the stop event
and the fingerprint baseline, and launch one loop thread. -/
def WMState.start {CB : Type} (s : WMState CB) (config : WatchConfig)
    (callback : Option CB) : WMState CB :=
  if s.isRunning then
    { s with config := config, callback := callback }
  else
    { s with
        config := config
        callback := callback
        stopSet := false
        lastFingerprint := none
        thread := some s.spawns
        spawns := s.spawns + 1
        active := s.active + 1
        isRunning := true }

/-- `WatchManager.stop()`: no-op when not running; otherwise set the stop
event, join and drop the thread, and clear the running flag and the
fingerprint baseline. -/
def WMState.stop {CB : Type} (s : WMState CB) : WMState CB :=
  if s.isRunning then
    { s with
        stopSet := true
        thread := none
        active := s.active - 1
        isRunning := false
        lastFingerprint := none }
  else s

inductive WMOp (CB : Type) where
  | start (config : WatchConfig) (callback : Option CB)
  | stop

def applyWMOp {CB : Type} (s : WMState CB) : WMOp CB → WMState CB
  | WMOp.start cfg cb => s.start cfg cb
  | WMOp.stop => s.stop

def applyWMOps {CB : Type} (s : WMState CB) (ops : List (WMOp CB)) :
    WMState CB :=
  ops.foldl applyWMOp s

theorem applyWMOp_inv {CB : Type} (s : WMState CB) (op : WMOp CB)
    (h : s.active ≤ 1 ∧ (s.isRunning = true ↔ s.active = 1)) :
    (applyWMOp s op).active ≤ 1 ∧
    ((applyWMOp s op).isRunning = true ↔ (applyWMOp s op).active = 1) := by
  obtain ⟨h1, h2⟩ := h
  cases op with
  | start cfg cb =>
    show (s.start cfg cb).active ≤ 1 ∧
      ((s.start cfg cb).isRunning = true ↔ (s.start cfg cb).active = 1)
    unfold WMState.start
    by_cases hr : s.isRunning
    · rw [if_pos hr]
      exact ⟨h1, h2⟩
    · rw [if_neg hr]
      have hz : s.active = 0 := by
        have hne : s.active ≠ 1 := fun he => hr (h2.mpr he)
        omega
      constructor
      · show s.active + 1 ≤ 1
        omega
      · show true = true ↔ s.active + 1 = 1
        constructor
        · intro _
          omega
        · intro _
          rfl
  | stop =>
    show s.stop.active ≤ 1 ∧ (s.stop.isRunning = true ↔ s.stop.active = 1)
    unfold WMState.stop
    by_cases hr : s.isRunning
    · rw [if_pos hr]
      have ha : s.active = 1 := h2.mp hr
      constructor
      · show s.active - 1 ≤ 1
        omega
      · show false = true ↔ s.active - 1 = 1
        constructor
        · intro hc
          cases hc
        · intro hc
          omega
    · rw [if_neg hr]
      exact ⟨h1, h2⟩

/-- C7: from the initial state, every sequence of start/stop requests keeps
at most one loop thread alive; `start` while running replaces only the
configuration and callback (no new thread, no loop restart, baseline kept);
`start` while stopped clears the baseline and launches exactly one thread. -/
theorem watchManager_single_context {CB : Type} (s : WMState CB)
    (cfg : WatchConfig) (cb : Option CB) :
    (∀ ops : List (WMOp CB), (applyWMOps (WMState.init CB) ops).active ≤ 1) ∧
    (s.isRunning = true →
      s.start cfg cb = { s with config := cfg, callback := cb }) ∧
    (s.isRunning = false →
      (s.start cfg cb).lastFingerprint = none ∧
      (s.start cfg cb).thread = some s.spawns ∧
      (s.start cfg cb).spawns = s.spawns + 1 ∧
      (s.start cfg cb).active = s.active + 1 ∧
      (s.start cfg cb).isRunning = true) := by
  refine ⟨?_, ?_, ?_⟩
  · intro ops
    have h : ∀ (t : WMState CB), t.active ≤ 1 ∧
        (t.isRunning = true ↔ t.active = 1) →
        (applyWMOps t ops).active ≤ 1 ∧
        ((applyWMOps t ops).isRunning = true ↔ (applyWMOps t ops).active = 1) := by
      induction ops with
      | nil => exact fun t ht => ht
      | cons op rest ih =>
        intro t ht
        exact ih (applyWMOp t op) (applyWMOp_inv t op ht)
    exact (h (WMState.init CB) ⟨by simp [WMState.init], by simp [WMState.init]⟩).1
  · intro hr
    unfold WMState.start
    rw [if_pos hr]
  · intro hr
    unfold WMState.start
    rw [if_neg (by simp [hr])]
    exact ⟨rfl, rfl, rfl, rfl, rfl⟩

theorem watchManager_single_context_witness :
    (applyWMOps (WMState.init ℕ)
      [WMOp.start {} (some 7), WMOp.stop]).active ≤ 1 ∧
    ((⟨some 0, 1, 1, false, {}, some [1], true, some 7⟩ : WMState ℕ).start
        ({ run_vlm := true } : WatchConfig) (some 8) =
      (⟨some 0, 1, 1, false, { run_vlm := true }, some [1], true, some 8⟩ :
        WMState ℕ)) ∧
    (((WMState.init ℕ).start ({} : WatchConfig) (some 7)).lastFingerprint =
        none ∧
      ((WMState.init ℕ).start ({} : WatchConfig) (some 7)).thread = some 0 ∧
      ((WMState.init ℕ).start ({} : WatchConfig) (some 7)).spawns = 1 ∧
      ((WMState.init ℕ).start ({} : WatchConfig) (some 7)).active = 1 ∧
      ((WMState.init ℕ).start ({} : WatchConfig) (some 7)).isRunning = true) := by
  refine ⟨?_, ?_, ?_⟩
  · exact (watchManager_single_context (WMState.init ℕ) {} (some 7)).1
      [WMOp.start {} (some 7), WMOp.stop]
  · exact (watchManager_single_context
      (⟨some 0, 1, 1, false, {}, some [1], true, some 7⟩ : WMState ℕ)
      ({ run_vlm := true } : WatchConfig) (some 8)).2.1 rfl
  · exact (watchManager_single_context (WMState.init ℕ) ({} : WatchConfig)
      (some 7)).2.2 rfl

/-- C8: a tick whose capture step raises emits exactly one `error` event
carrying the failure message, leaves the fingerprint baseline unchanged, and
the loop proceeds with the remaining ticks instead of terminating. -/
theorem watchLoop_error_recovery (cfg : WatchConfig) (ocrOn vlmOn : Bool)
    (lastFp : Option (List ℕ)) (inp : TickInput) (rest : List TickInput)
    (msg : String) (hcap : inp.captureRes = Except.error msg) :
    watchTick cfg ocrOn vlmOn true lastFp inp =
      ([WatchEvent.error msg], lastFp) ∧
    watchLoop cfg ocrOn vlmOn true lastFp (inp :: rest) =
      ([WatchEvent.error msg] ::
        (watchLoop cfg ocrOn vlmOn true lastFp rest).1,
        (watchLoop cfg ocrOn vlmOn true lastFp rest).2) ∧
    (∀ (lastFp' : Option (List ℕ)) (inp' : TickInput) (frame : Frame)
      (rest' : List TickInput),
      inp'.captureRes = Except.ok frame →
      calculate_diff lastFp' (some frame.fp) = none →
      watchTick cfg ocrOn vlmOn true lastFp' inp' =
        ([WatchEvent.error "division by zero"], lastFp') ∧
      watchLoop cfg ocrOn vlmOn true lastFp' (inp' :: rest') =
        ([WatchEvent.error "division by zero"] ::
          (watchLoop cfg ocrOn vlmOn true lastFp' rest').1,
          (watchLoop cfg ocrOn vlmOn true lastFp' rest').2)) := by
  have ht : watchTick cfg ocrOn vlmOn true lastFp inp =
      ([WatchEvent.error msg], lastFp) := by
    unfold watchTick
    rw [hcap]
    rfl
  refine ⟨ht, ?_, ?_⟩
  · rw [watchLoop_cons, ht]
  · intro lastFp' inp' frame rest' hcap' hdiff'
    have ht' : watchTick cfg ocrOn vlmOn true lastFp' inp' =
        ([WatchEvent.error "division by zero"], lastFp') := by
      unfold watchTick
      rw [hcap']
      dsimp only
      rw [hdiff']
      rfl
    refine ⟨ht', ?_⟩
    rw [watchLoop_cons, ht']

theorem watchLoop_error_recovery_witness :
    watchTick ({} : WatchConfig) false false true (some [3])
      ⟨Except.error "no display", 1, Except.ok [], Except.ok "d"⟩ =
      ([WatchEvent.error "no display"], some [3]) ∧
    watchLoop ({} : WatchConfig) false false true (some [3])
      [⟨Except.error "no display", 1, Except.ok [], Except.ok "d"⟩,
       ⟨Except.ok ⟨[3], 1, 1⟩, 2, Except.ok [], Except.ok "d"⟩] =
      ([WatchEvent.error "no display"] ::
        (watchLoop ({} : WatchConfig) false false true (some [3])
          [⟨Except.ok ⟨[3], 1, 1⟩, 2, Except.ok [], Except.ok "d"⟩]).1,
        (watchLoop ({} : WatchConfig) false false true (some [3])
          [⟨Except.ok ⟨[3], 1, 1⟩, 2, Except.ok [], Except.ok "d"⟩]).2) ∧
    (∀ (lastFp' : Option (List ℕ)) (inp' : TickInput) (frame : Frame)
      (rest' : List TickInput),
      inp'.captureRes = Except.ok frame →
      calculate_diff lastFp' (some frame.fp) = none →
      watchTick ({} : WatchConfig) false false true lastFp' inp' =
        ([WatchEvent.error "division by zero"], lastFp') ∧
      watchLoop ({} : WatchConfig) false false true lastFp' (inp' :: rest') =
        ([WatchEvent.error "division by zero"] ::
          (watchLoop ({} : WatchConfig) false false true lastFp' rest').1,
          (watchLoop ({} : WatchConfig) false false true lastFp' rest').2)) := by
  exact watchLoop_error_recovery {} false false (some [3])
    ⟨Except.error "no display", 1, Except.ok [], Except.ok "d"⟩
    [⟨Except.ok ⟨[3], 1, 1⟩, 2, Except.ok [], Except.ok "d"⟩]
    "no display" rfl
